import Mathlib

/- Shallow embedding of the crawler core of the sykell-url-analyzer backend
   (backend/services/crawler.go), together with executable models of the
   parts of its dependencies that the crawler calls into: the Go standard
   library package net/url (Parse, ResolveReference, URL.String) and the
   HTML node tree of golang.org/x/net/html.  Network I/O (the page GET and
   the per-link HEAD requests) is modelled by explicit oracles passed as
   arguments. -/

namespace UrlAnalyzer

/-! ### String helpers: models of the Go strings functions used by the crawler -/

/-- Whitespace characters recognised by Go unicode.IsSpace in the Latin-1
range (sufficient for the crawler, which only trims page titles). -/
def isSpaceChar (c : Char) : Bool :=
  c == ' ' || c == '\t' || c == '\n' || c.toNat == 0x0b || c.toNat == 0x0c ||
  c == '\r' || c.toNat == 0x85 || c.toNat == 0xa0

/-- Model of Go strings.TrimSpace: drop leading and trailing whitespace. -/
def goTrim (s : String) : String :=
  ⟨((s.data.dropWhile isSpaceChar).reverse.dropWhile isSpaceChar).reverse⟩

/-- Model of Go strings.ToLower (ASCII letters; the crawler only ever
compares the result against ASCII literals). -/
def goToLower (s : String) : String := ⟨s.data.map Char.toLower⟩

/-- hasSub needle hay decides whether needle occurs as a contiguous
substring of hay. -/
def hasSub (needle : List Char) : List Char → Bool
  | [] => needle.isEmpty
  | c :: t => needle.isPrefixOf (c :: t) || hasSub needle t

/-- Model of Go strings.Contains. -/
def goContains (s sub : String) : Bool := hasSub sub.data s.data

/-- Character-list prefix test. -/
def listHasPre : List Char → List Char → Bool
  | [], _ => true
  | _ :: _, [] => false
  | p :: ps, s :: ss => p == s && listHasPre ps ss

/-- Model of Go strings.HasPrefix. -/
def goHasPre (s pre : String) : Bool := listHasPre pre.data s.data

/-! ### Model of the net/url package (the parts the crawler uses)

The model keeps scheme, opaque part, host, path, query and fragment as raw
strings.  Percent-escaping, userinfo retention, port and host-character
validation are not modelled; the crawler's claims do not depend on them.
The model rejects exactly the inputs Go's url.Parse rejects structurally:
ASCII control characters, a leading colon, and a colon inside the first
path segment of a scheme-less relative URL. -/

/-- Go net/url rejects ASCII control characters anywhere in a URL. -/
def isCtl (c : Char) : Bool := c.toNat < 0x20 || c.toNat == 0x7f

/-- Characters allowed after the first character of a URL scheme. -/
def schemeOkChar (c : Char) : Bool :=
  c.isAlpha || c.isDigit || c == '+' || c == '-' || c == '.'

/-- Scan for a scheme: returns (scheme characters, remainder) when the
input is scheme followed by a colon and the scheme is letter-led.  Model of
net/url getScheme's success case; acc holds the scanned characters in
reverse. -/
def schemeSplit (acc : List Char) : List Char → Option (List Char × List Char)
  | [] => none
  | c :: cs =>
      if c == ':' then (if acc.isEmpty then none else some (acc.reverse, cs))
      else if (acc.isEmpty && c.isAlpha) || (!acc.isEmpty && schemeOkChar c) then
        schemeSplit (c :: acc) cs
      else none

/-- Cut a list at the first occurrence of c: returns the parts before and
after it (the separator removed), or none when c does not occur. -/
def cutChar (c : Char) : List Char → Option (List Char × List Char)
  | [] => none
  | x :: xs =>
      if x == c then some ([], xs)
      else (cutChar c xs).map (fun p => (x :: p.1, p.2))

/-- The record underlying Go's url.URL, restricted to the fields the
crawler can observe.  hasQuery subsumes Go's ForceQuery/RawQuery pair: it
is true exactly when a question mark was present. -/
structure GoURL where
  scheme : String
  opq : String
  host : String
  path : String
  hasQuery : Bool
  query : String
  fragment : String
  omitHost : Bool
  deriving DecidableEq, Repr, Inhabited

/-- The zero url.URL value. -/
def nilURL : GoURL := ⟨"", "", "", "", false, "", "", false⟩

/-- Split off the fragment at the first hash: (part before, fragment). -/
def splitFrag (l : List Char) : List Char × List Char :=
  match cutChar '#' l with
  | some (before, after) => (before, after)
  | none => (l, [])

/-- Split off the query at the first question mark: (part before, whether a
question mark was present, query). -/
def splitQuery (l : List Char) : List Char × Bool × List Char :=
  match cutChar '?' l with
  | some (before, after) => (before, true, after)
  | none => (l, false, [])

/-- Split off a lowered scheme when one is present (Go getScheme). -/
def parseScheme (l : List Char) : String × List Char :=
  match schemeSplit [] l with
  | some (s, r) => (goToLower ⟨s⟩, r)
  | none => ("", l)

/-- Split the authority part (after //) from the rest of the path. -/
def splitAuthority (l : List Char) : List Char × List Char :=
  match cutChar '/' (l.drop 2) with
  | some (a, p) => (a, '/' :: p)
  | none => (l.drop 2, [])

/-- The host of an authority: everything after the last at sign. -/
def hostOf (auth : List Char) : String :=
  ⟨(auth.reverse.takeWhile (fun c => c != '@')).reverse⟩

/-- The case split of net/url parse after scheme/query/fragment removal:
rootless remainders become opaque URLs (with a scheme) or paths, a //
remainder carries an authority. -/
def parseAfterScheme (sch : String) (rest1 : List Char) (hasQ : Bool)
    (q frag : List Char) : Option GoURL :=
  if rest1.head? ≠ some '/' then
    if sch ≠ "" then
      some { nilURL with scheme := sch, opq := ⟨rest1⟩, hasQuery := hasQ,
                         query := ⟨q⟩, fragment := ⟨frag⟩ }
    else if (rest1.takeWhile (fun c => c != '/')).any (fun c => c == ':') then
      none
    else
      some { nilURL with path := ⟨rest1⟩, hasQuery := hasQ,
                         query := ⟨q⟩, fragment := ⟨frag⟩ }
  else if (sch ≠ "" || !goHasPre ⟨rest1⟩ "///") && goHasPre ⟨rest1⟩ "//" then
    let ap := splitAuthority rest1
    some { nilURL with scheme := sch, host := hostOf ap.1, path := ⟨ap.2⟩,
                       hasQuery := hasQ, query := ⟨q⟩, fragment := ⟨frag⟩ }
  else
    some { nilURL with scheme := sch, path := ⟨rest1⟩, hasQuery := hasQ,
                       query := ⟨q⟩, fragment := ⟨frag⟩,
                       omitHost := decide (sch ≠ "") }

/-- Model of net/url's URL.Parse.  Splits off the fragment, the scheme and
the query, then distinguishes the opaque, authority and path forms the way
Go's parse function does. -/
def parseURL (rawURL : String) : Option GoURL :=
  if rawURL.data.any isCtl then none
  else
    let pf := splitFrag rawURL.data
    if pf.1.head? = some ':' then none
    else
      let ps := parseScheme pf.1
      let pq := splitQuery ps.2
      parseAfterScheme ps.1 pq.1 pq.2.1 pq.2.2 pf.2

/-- Index of the last '/' in l, when one occurs. -/
def lastSlashIdx (l : List Char) : Option Nat :=
  match l.reverse.findIdx? (fun c => c == '/') with
  | some i => some (l.length - 1 - i)
  | none => none

/-- One iteration of the segment loop inside net/url resolvePath: given the
builder contents dst (always starting with '/'), the first-segment flag and
the current segment, produce the updated builder and flag. -/
def dotStep (dst : List Char) (first : Bool) (elem : List Char) : List Char × Bool :=
  if elem = ['.'] then (dst, false)
  else if elem = ['.', '.'] then
    match lastSlashIdx dst.tail with
    | none => (['/'], true)
    | some i => ('/' :: dst.tail.take i, first)
  else ((dst ++ (if first then [] else ['/'])) ++ elem, false)

/-- Split a character list at every occurrence of c (the Cut loop of Go's
resolvePath produces exactly these segments); cur holds the current segment
reversed. -/
def splitOnCharAux (c : Char) (cur : List Char) : List Char → List (List Char)
  | [] => [cur.reverse]
  | x :: xs =>
      if x == c then cur.reverse :: splitOnCharAux c [] xs
      else splitOnCharAux c (x :: cur) xs

/-- All segments of l between occurrences of c, empties included. -/
def splitOnChar (c : Char) (l : List Char) : List (List Char) :=
  splitOnCharAux c [] l

/-- The segment loop of net/url resolvePath over the pre-split segments:
feed each to dotStep and return the final builder contents together with
the last segment processed. -/
def dotSegsLoop (dst : List Char) (first : Bool) :
    List (List Char) → List Char × List Char
  | [] => (dst, [])
  | elem :: rest =>
    let p := dotStep dst first elem
    match rest with
    | [] => (p.1, elem)
    | _ :: _ => dotSegsLoop p.1 p.2 rest

/-- Model of net/url resolvePath: merge ref with the base path per RFC 3986
section 5.3 and remove dot segments the way Go's segment loop does.  The
result always begins with '/' when non-empty. -/
def resolvePath (base ref : String) : String :=
  let full : List Char :=
    if ref = "" then base.data
    else if ref.data.head? != some '/' then
      (base.data.reverse.dropWhile (fun c => c != '/')).reverse ++ ref.data
    else ref.data
  if full = [] then ""
  else
    let pr := dotSegsLoop ['/'] true (splitOnChar '/' full)
    let dst2 :=
      pr.1 ++ (if pr.2 = ['.'] || pr.2 = ['.', '.'] then ['/'] else [])
    let r := if dst2.length > 1 ∧ dst2.get? 1 = some '/' then dst2.tail else dst2
    ⟨r⟩

/-- Model of net/url's URL.ResolveReference (without userinfo). -/
def resolveReference (u ref : GoURL) : GoURL :=
  let sch := if ref.scheme = "" then u.scheme else ref.scheme
  if ref.scheme ≠ "" ∨ ref.host ≠ "" then
    { ref with scheme := sch, path := resolvePath ref.path "" }
  else if ref.opq ≠ "" then
    { ref with scheme := sch, host := "", path := "" }
  else
    let keepBaseQ := ref.path = "" ∧ ref.hasQuery = false
    { ref with
      scheme := sch
      host := u.host
      hasQuery := if keepBaseQ then u.hasQuery else ref.hasQuery
      query := if keepBaseQ then u.query else ref.query
      fragment := if keepBaseQ ∧ ref.fragment = "" then u.fragment else ref.fragment
      path := resolvePath u.path ref.path }

/-- Model of net/url's URL.String (without userinfo and escaping). -/
def urlString (u : GoURL) : String :=
  let buf1 := if u.scheme ≠ "" then u.scheme ++ ":" else ""
  let buf2 :=
    if u.opq ≠ "" then buf1 ++ u.opq
    else
      let b :=
        if u.scheme ≠ "" ∨ u.host ≠ "" then
          if u.omitHost ∧ u.host = "" then buf1
          else
            let b0 := if u.host ≠ "" ∨ u.path ≠ "" then buf1 ++ "//" else buf1
            b0 ++ u.host
        else buf1
      let b2 :=
        if u.path ≠ "" ∧ u.path.data.head? ≠ some '/' ∧ u.host ≠ "" then b ++ "/"
        else b
      let b3 :=
        if b2 = "" then
          let seg := u.path.data.takeWhile (fun c => c != '/')
          if seg.any (fun c => c == ':') then b2 ++ "./" else b2
        else b2
      b3 ++ u.path
  let buf3 := if u.hasQuery then buf2 ++ "?" ++ u.query else buf2
  if u.fragment ≠ "" then buf3 ++ "#" ++ u.fragment else buf3

/-! ### Model of the golang.org/x/net/html node tree

Go's html.Node links children through FirstChild/NextSibling pointers; the
model carries the children directly as a list, in sibling order, so the
crawler's loops over c.FirstChild..NextSibling become list recursion. -/

/-- The node kinds of golang.org/x/net/html. -/
inductive NodeType where
  | errorNode
  | textNode
  | documentNode
  | elementNode
  | commentNode
  | doctypeNode
  | rawNode
  deriving DecidableEq, Repr

/-- One key/value attribute of an element (html.Attribute). -/
structure Attribute where
  key : String
  val : String
  deriving DecidableEq, Repr

/-- html.Node: type, Data (tag name, text, or doctype content), attributes
and children in document order. -/
inductive Node where
  | mk (ntype : NodeType) (data : String) (attr : List Attribute) (children : List Node)

/-- The node's type field. -/
def Node.ntype : Node → NodeType
  | .mk t _ _ _ => t

/-- The node's Data field. -/
def Node.data : Node → String
  | .mk _ d _ _ => d

/-- The node's attribute list. -/
def Node.attr : Node → List Attribute
  | .mk _ _ a _ => a

/-- The node's children, in sibling order. -/
def Node.children : Node → List Node
  | .mk _ _ _ c => c

mutual

/-- All nodes of the subtree rooted at n, in pre-order (a node before its
children, children in sibling order). -/
def preorder : Node → List Node
  | .mk t d a cs => .mk t d a cs :: preorderList cs

/-- Pre-order traversal of a forest of sibling subtrees. -/
def preorderList : List Node → List Node
  | [] => []
  | c :: rest => preorder c ++ preorderList rest

end

/-! ### Data model of the crawl result (backend/models/models.go) -/

/-- models.Link: one discovered anchor.  Database bookkeeping fields (IDs)
are omitted; StatusCode and IsAccessible carry Go's zero values 0/false
until checkLinkAccessibility fills them in. -/
structure Link where
  url : String
  linkType : String
  statusCode : Nat
  isAccessible : Bool
  deriving DecidableEq, Repr

/-- The h1..h6 counter fields of models.CrawlResult. -/
structure HeadingCounts where
  h1 : Nat
  h2 : Nat
  h3 : Nat
  h4 : Nat
  h5 : Nat
  h6 : Nat
  deriving DecidableEq, Repr

/-- models.CrawlResult restricted to the fields the crawler computes
(IDs and the CrawledAt wall-clock timestamp are omitted). -/
structure CrawlResult where
  title : String
  htmlVersion : String
  headings : HeadingCounts
  internalLinks : Nat
  externalLinks : Nat
  inaccessibleLinks : Nat
  hasLoginForm : Bool
  links : List Link
  deriving DecidableEq, Repr

/-! ### extractTitle (crawler.go lines 116-132) -/

/-- The Data of the first child when it exists and is a text node (the
condition extractTitle checks before returning a title). -/
def firstChildTextData : List Node → Option String
  | [] => none
  | c :: _ => if c.ntype = .textNode then some c.data else none

mutual

/-- The recursive findTitle closure of extractTitle: a title element whose
first child is a text node yields its trimmed text immediately; in every
other case (Go's fall-through) the children are searched, the empty string
doubling as "not found". -/
def findTitle : Node → String
  | .mk ty da _ cs =>
    if ty = .elementNode ∧ da = "title" then
      match firstChildTextData cs with
      | some s => goTrim s
      | none => findTitleList cs
    else findTitleList cs

/-- findTitle over a sibling list: first non-empty result wins. -/
def findTitleList : List Node → String
  | [] => ""
  | c :: rest =>
    let t := findTitle c
    if t = "" then findTitleList rest else t

end

/-- extractTitle: the title the crawler stores. -/
def extractTitle (doc : Node) : String := findTitle doc

/-! ### extractHTMLVersion (crawler.go lines 135-155) -/

mutual

/-- The recursive findDoctype closure: the Data of the first doctype node
reached, the empty string doubling as "not found". -/
def findDoctype : Node → String
  | .mk ty da _ cs =>
    match ty with
    | .doctypeNode => da
    | _ => findDoctypeList cs

/-- findDoctype over a sibling list: first non-empty result wins. -/
def findDoctypeList : List Node → String
  | [] => ""
  | c :: rest =>
    let d := findDoctype c
    if d = "" then findDoctypeList rest else d

end

/-- extractHTMLVersion: "HTML5" when the lowered doctype content contains
"html", otherwise "Unknown". -/
def extractHTMLVersion (doc : Node) : String :=
  let doctype := goToLower (findDoctype doc)
  if goContains doctype "html" || doctype = "html" then "HTML5" else "Unknown"

/-! ### extractHeadingCounts (crawler.go lines 158-182) -/

/-- The switch statement on the tag name inside the traversal: bump the
counter of the matching heading level. -/
def bumpHeading (da : String) (acc : HeadingCounts) : HeadingCounts :=
  if da = "h1" then { acc with h1 := acc.h1 + 1 }
  else if da = "h2" then { acc with h2 := acc.h2 + 1 }
  else if da = "h3" then { acc with h3 := acc.h3 + 1 }
  else if da = "h4" then { acc with h4 := acc.h4 + 1 }
  else if da = "h5" then { acc with h5 := acc.h5 + 1 }
  else if da = "h6" then { acc with h6 := acc.h6 + 1 }
  else acc

mutual

/-- The traverse closure of extractHeadingCounts, threading the counter
record through a pre-order walk. -/
def headNode : Node → HeadingCounts → HeadingCounts
  | .mk ty da _ cs, acc =>
    headList cs (if ty = .elementNode then bumpHeading da acc else acc)

/-- headNode over a sibling list. -/
def headList : List Node → HeadingCounts → HeadingCounts
  | [], acc => acc
  | c :: rest, acc => headList rest (headNode c acc)

end

/-- extractHeadingCounts: the six counters the crawler stores. -/
def extractHeadingCounts (doc : Node) : HeadingCounts :=
  headNode doc ⟨0, 0, 0, 0, 0, 0⟩

/-! ### extractLinks (crawler.go lines 185-225) -/

/-- The accumulator of extractLinks: the links slice and the two counters
on the result record. -/
structure LinkAcc where
  links : List Link
  internal : Nat
  external : Nat
  deriving DecidableEq, Repr

/-- The body of the attribute loop inside extractLinks: an href attribute
that is non-empty and not a pure fragment is parsed; on success the
resolved absolute URL is recorded and classified, a parse failure leaves
the accumulator unchanged. -/
def linkStep (base : GoURL) (acc : LinkAcc) (a : Attribute) : LinkAcc :=
  if a.key = "href" ∧ a.val ≠ "" ∧ ¬ goHasPre a.val "#" = true then
    match parseURL a.val with
    | none => acc
    | some linkURL =>
      let absoluteURL := resolveReference base linkURL
      if absoluteURL.host = base.host ∨ absoluteURL.host = "" then
        { links := acc.links ++ [⟨urlString absoluteURL, "internal", 0, false⟩],
          internal := acc.internal + 1, external := acc.external }
      else
        { links := acc.links ++ [⟨urlString absoluteURL, "external", 0, false⟩],
          internal := acc.internal, external := acc.external + 1 }
  else acc

mutual

/-- The traverse closure of extractLinks: at an anchor element the
attribute loop runs, then the children are visited. -/
def linksNode (base : GoURL) : Node → LinkAcc → LinkAcc
  | .mk ty da attrs cs, acc =>
    linksList base cs
      (if ty = .elementNode ∧ da = "a" then attrs.foldl (linkStep base) acc else acc)

/-- linksNode over a sibling list. -/
def linksList (base : GoURL) : List Node → LinkAcc → LinkAcc
  | [], acc => acc
  | c :: rest, acc => linksList base rest (linksNode base c acc)

end

/-- extractLinks: parse the page URL (Go discards the parse error; the
zero URL stands in for the nil pointer, which the claims exclude by
hypothesis) and run the traversal from an empty accumulator. -/
def extractLinks (doc : Node) (baseURL : String) : LinkAcc :=
  let parsedBaseURL := (parseURL baseURL).getD nilURL
  linksNode parsedBaseURL doc ⟨[], 0, 0⟩

/-! ### checkLoginForm (crawler.go lines 228-262) -/

mutual

/-- The hasPasswordField closure: does the subtree contain an input element
with a type attribute of password or email? -/
def hasPasswordField : Node → Bool
  | .mk ty da attrs cs =>
    (if ty = .elementNode ∧ da = "input" ∧
        ∃ a ∈ attrs, a.key = "type" ∧ (a.val = "password" ∨ a.val = "email")
     then true
     else hasPasswordFieldList cs)

/-- hasPasswordField over a sibling list. -/
def hasPasswordFieldList : List Node → Bool
  | [] => false
  | c :: rest => hasPasswordField c || hasPasswordFieldList rest

end

mutual

/-- The outer traverse closure of checkLoginForm: stop at the first form
element whose subtree has a password or email input. -/
def loginTraverse : Node → Bool
  | .mk ty da attrs cs =>
    if ty = .elementNode ∧ da = "form" ∧
        hasPasswordField (.mk ty da attrs cs) = true
    then true
    else loginTraverseList cs

/-- loginTraverse over a sibling list. -/
def loginTraverseList : List Node → Bool
  | [] => false
  | c :: rest => loginTraverse c || loginTraverseList rest

end

/-- checkLoginForm: the boolean the crawler stores. -/
def checkLoginForm (doc : Node) : Bool := loginTraverse doc

/-! ### checkLinkAccessibility (crawler.go lines 265-301)

The HEAD request is modelled by an oracle from URL strings to an optional
status code; none models a network failure (timeout, connection refused,
DNS failure), some code a received response with that status. -/

/-- The skip condition of the loop: very long URLs and URLs not starting
with an http or https prefix are never probed. -/
def skipCheck (u : String) : Bool :=
  decide (2000 < u.data.length) || (!goHasPre u "http://" && !goHasPre u "https://")

/-- The body of the loop over the links: fill in StatusCode/IsAccessible
for one link, consulting the HEAD oracle only when the skip condition does
not hold. -/
def checkOneLink (oracle : String → Option Nat) (l : Link) : Link :=
  if skipCheck l.url then { l with statusCode := 0, isAccessible := false }
  else
    match oracle l.url with
    | none => { l with statusCode := 0, isAccessible := false }
    | some code =>
      { l with statusCode := code, isAccessible := decide (code < 400) }

/-- checkLinkAccessibility: update every link in order and aggregate the
running count of inaccessible links. -/
def checkLinkAccessibility (oracle : String → Option Nat) (links : List Link) :
    List Link × Nat :=
  links.foldl
    (fun acc l =>
      let l2 := checkOneLink oracle l
      (acc.1 ++ [l2], acc.2 + (if l2.isAccessible then 0 else 1)))
    ([], 0)

/-! ### performCrawl (crawler.go lines 78-113) -/

/-- The outcome of the page GET: a network failure, or a response with its
status code and (for status 200) the document html.Parse produces.
html.Parse cannot fail on a fully received body, so the parsed tree is
carried directly. -/
inductive FetchOutcome where
  | netError
  | response (status : Nat) (doc : Node)

/-- The run-level errors performCrawl can return. -/
inductive CrawlError where
  | networkFailure
  | unexpectedStatus (code : Nat)
  deriving DecidableEq, Repr

/-- The pure extraction phase of performCrawl (crawler.go lines 102-107):
title, HTML version, heading counts, links and login form, assembled into
the result record with the link-status fields still at their zero values. -/
def analyze (doc : Node) (targetURL : String) : CrawlResult :=
  let la := extractLinks doc targetURL
  { title := extractTitle doc
    htmlVersion := extractHTMLVersion doc
    headings := extractHeadingCounts doc
    internalLinks := la.internal
    externalLinks := la.external
    inaccessibleLinks := 0
    hasLoginForm := checkLoginForm doc
    links := la.links }

/-- performCrawl lines 102-110: extraction followed by the link
accessibility pass. -/
def runAnalysis (oracle : String → Option Nat) (doc : Node) (targetURL : String) :
    CrawlResult :=
  let r := analyze doc targetURL
  let checked := checkLinkAccessibility oracle r.links
  { r with links := checked.1, inaccessibleLinks := checked.2 }

/-- performCrawl: a network failure or a non-200 status aborts the run
with an error and no result; a 200 response always yields a result. -/
def performCrawl (oracle : String → Option Nat) (targetURL : String) :
    FetchOutcome → Except CrawlError CrawlResult
  | .netError => .error .networkFailure
  | .response status doc =>
    if status = 200 then .ok (runAnalysis oracle doc targetURL)
    else .error (.unexpectedStatus status)

/-! ### Specification-side characterizations and helper lemmas -/

/-- Whether a node is an element carrying the given tag name. -/
def isTag (tag : String) (n : Node) : Bool :=
  n.ntype == .elementNode && n.data == tag

/-- Number of elements with the given tag name anywhere in the subtree. -/
def countTag (tag : String) (n : Node) : Nat :=
  (preorder n).countP (isTag tag)

/-- Number of elements with the given tag name anywhere in the forest. -/
def countTagList (tag : String) (cs : List Node) : Nat :=
  (preorderList cs).countP (isTag tag)

theorem bumpHeading_eq (da : String) (acc : HeadingCounts) :
    bumpHeading da acc =
      { h1 := acc.h1 + (if da = "h1" then 1 else 0),
        h2 := acc.h2 + (if da = "h2" then 1 else 0),
        h3 := acc.h3 + (if da = "h3" then 1 else 0),
        h4 := acc.h4 + (if da = "h4" then 1 else 0),
        h5 := acc.h5 + (if da = "h5" then 1 else 0),
        h6 := acc.h6 + (if da = "h6" then 1 else 0) } := by
  unfold bumpHeading
  by_cases e1 : da = "h1"
  · subst e1; simp
  by_cases e2 : da = "h2"
  · subst e2; simp
  by_cases e3 : da = "h3"
  · subst e3; simp
  by_cases e4 : da = "h4"
  · subst e4; simp
  by_cases e5 : da = "h5"
  · subst e5; simp
  by_cases e6 : da = "h6"
  · subst e6; simp
  simp [e1, e2, e3, e4, e5, e6]

theorem countTag_mk (tag : String) (ty : NodeType) (da : String)
    (attrs : List Attribute) (cs : List Node) :
    countTag tag (.mk ty da attrs cs) =
      countTagList tag cs + (if ty = NodeType.elementNode ∧ da = tag then 1 else 0) := by
  unfold countTag countTagList
  rw [show preorder (.mk ty da attrs cs) = .mk ty da attrs cs :: preorderList cs
    from rfl]
  rw [List.countP_cons]
  congr 1
  unfold isTag
  simp [Node.ntype, Node.data, Bool.and_eq_true]

theorem countTagList_cons (tag : String) (c : Node) (rest : List Node) :
    countTagList tag (c :: rest) = countTag tag c + countTagList tag rest := by
  unfold countTag countTagList
  rw [show preorderList (c :: rest) = preorder c ++ preorderList rest from rfl]
  rw [List.countP_append]

mutual

theorem headNode_count : ∀ (n : Node) (acc : HeadingCounts),
    headNode n acc =
      { h1 := acc.h1 + countTag "h1" n, h2 := acc.h2 + countTag "h2" n,
        h3 := acc.h3 + countTag "h3" n, h4 := acc.h4 + countTag "h4" n,
        h5 := acc.h5 + countTag "h5" n, h6 := acc.h6 + countTag "h6" n }
  | .mk ty da attrs cs, acc => by
    simp only [headNode]
    rw [headList_count cs]
    simp only [countTag_mk]
    by_cases hty : ty = NodeType.elementNode
    · subst hty
      rw [if_pos rfl, bumpHeading_eq]
      simp only [HeadingCounts.mk.injEq, eq_self_iff_true, true_and]
      refine ⟨?_, ?_, ?_, ?_, ?_, ?_⟩ <;> omega
    · rw [if_neg hty]
      simp only [hty, false_and, if_false, HeadingCounts.mk.injEq]
      refine ⟨?_, ?_, ?_, ?_, ?_, ?_⟩ <;> omega

theorem headList_count : ∀ (cs : List Node) (acc : HeadingCounts),
    headList cs acc =
      { h1 := acc.h1 + countTagList "h1" cs, h2 := acc.h2 + countTagList "h2" cs,
        h3 := acc.h3 + countTagList "h3" cs, h4 := acc.h4 + countTagList "h4" cs,
        h5 := acc.h5 + countTagList "h5" cs, h6 := acc.h6 + countTagList "h6" cs }
  | [], acc => by
    simp [headList, countTagList, preorderList]
  | c :: rest, acc => by
    simp only [headList]
    rw [headNode_count c, headList_count rest]
    simp only [countTagList_cons, HeadingCounts.mk.injEq]
    refine ⟨?_, ?_, ?_, ?_, ?_, ?_⟩ <;> omega

end

/-- C8: for every document and every heading level h1..h6, the extracted
heading count is exactly the number of elements with that tag name in the
document, at arbitrary nesting depth and independent of attributes or
nested content (the count only inspects the node type and tag). -/
theorem extractHeadingCounts_exact (doc : Node) :
    (extractHeadingCounts doc).h1 = countTag "h1" doc ∧
    (extractHeadingCounts doc).h2 = countTag "h2" doc ∧
    (extractHeadingCounts doc).h3 = countTag "h3" doc ∧
    (extractHeadingCounts doc).h4 = countTag "h4" doc ∧
    (extractHeadingCounts doc).h5 = countTag "h5" doc ∧
    (extractHeadingCounts doc).h6 = countTag "h6" doc := by
  unfold extractHeadingCounts
  rw [headNode_count]
  simp

@[simp] theorem preorder_mk (ty : NodeType) (da : String) (attrs : List Attribute)
    (cs : List Node) :
    preorder (.mk ty da attrs cs) = .mk ty da attrs cs :: preorderList cs := rfl

@[simp] theorem preorderList_nil : preorderList [] = [] := rfl

@[simp] theorem preorderList_cons (c : Node) (rest : List Node) :
    preorderList (c :: rest) = preorder c ++ preorderList rest := rfl

/-- Spec-side predicate: an input element whose type attribute is password
or email (the login-form signal of checkLoginForm). -/
def isLoginInput (n : Node) : Prop :=
  n.ntype = .elementNode ∧ n.data = "input" ∧
    ∃ a ∈ n.attr, a.key = "type" ∧ (a.val = "password" ∨ a.val = "email")

mutual

theorem hasPasswordField_iff : ∀ (n : Node),
    hasPasswordField n = true ↔ ∃ m ∈ preorder n, isLoginInput m
  | .mk ty da attrs cs => by
    simp only [hasPasswordField]
    by_cases hc : ty = NodeType.elementNode ∧ da = "input" ∧
        ∃ a ∈ attrs, a.key = "type" ∧ (a.val = "password" ∨ a.val = "email")
    · rw [if_pos hc]
      constructor
      · intro _
        exact ⟨.mk ty da attrs cs, by simp,
          by simpa [isLoginInput, Node.ntype, Node.data, Node.attr] using hc⟩
      · intro _
        rfl
    · rw [if_neg hc, hasPasswordFieldList_iff cs]
      constructor
      · rintro ⟨m, hm, hP⟩
        exact ⟨m, by simp [List.mem_cons_of_mem _ hm], hP⟩
      · rintro ⟨m, hm, hP⟩
        rcases List.mem_cons.mp (by simpa using hm) with rfl | hm2
        · exact absurd (by simpa [isLoginInput, Node.ntype, Node.data, Node.attr]
            using hP) hc
        · exact ⟨m, hm2, hP⟩

theorem hasPasswordFieldList_iff : ∀ (cs : List Node),
    hasPasswordFieldList cs = true ↔ ∃ m ∈ preorderList cs, isLoginInput m
  | [] => by simp [hasPasswordFieldList]
  | c :: rest => by
    simp only [hasPasswordFieldList, Bool.or_eq_true]
    rw [hasPasswordField_iff c, hasPasswordFieldList_iff rest]
    simp only [preorderList_cons, List.mem_append]
    constructor
    · rintro (⟨m, hm, hP⟩ | ⟨m, hm, hP⟩)
      · exact ⟨m, Or.inl hm, hP⟩
      · exact ⟨m, Or.inr hm, hP⟩
    · rintro ⟨m, hm | hm, hP⟩
      · exact Or.inl ⟨m, hm, hP⟩
      · exact Or.inr ⟨m, hm, hP⟩

end

/-- Spec-side predicate: a form element whose subtree (the form included)
contains a password or email input. -/
def isLoginForm (n : Node) : Prop :=
  n.ntype = .elementNode ∧ n.data = "form" ∧ hasPasswordField n = true

mutual

theorem loginTraverse_iff : ∀ (n : Node),
    loginTraverse n = true ↔ ∃ f ∈ preorder n, isLoginForm f
  | .mk ty da attrs cs => by
    simp only [loginTraverse]
    by_cases hc : ty = NodeType.elementNode ∧ da = "form" ∧
        hasPasswordField (.mk ty da attrs cs) = true
    · rw [if_pos hc]
      constructor
      · intro _
        exact ⟨.mk ty da attrs cs, by simp,
          by simpa [isLoginForm, Node.ntype, Node.data] using hc⟩
      · intro _
        rfl
    · rw [if_neg hc, loginTraverseList_iff cs]
      constructor
      · rintro ⟨m, hm, hP⟩
        exact ⟨m, by simp [List.mem_cons_of_mem _ hm], hP⟩
      · rintro ⟨m, hm, hP⟩
        rcases List.mem_cons.mp (by simpa using hm) with rfl | hm2
        · exact absurd (by simpa [isLoginForm, Node.ntype, Node.data] using hP) hc
        · exact ⟨m, hm2, hP⟩

theorem loginTraverseList_iff : ∀ (cs : List Node),
    loginTraverseList cs = true ↔ ∃ f ∈ preorderList cs, isLoginForm f
  | [] => by simp [loginTraverseList]
  | c :: rest => by
    simp only [loginTraverseList, Bool.or_eq_true]
    rw [loginTraverse_iff c, loginTraverseList_iff rest]
    simp only [preorderList_cons, List.mem_append]
    constructor
    · rintro (⟨m, hm, hP⟩ | ⟨m, hm, hP⟩)
      · exact ⟨m, Or.inl hm, hP⟩
      · exact ⟨m, Or.inr hm, hP⟩
    · rintro ⟨m, hm | hm, hP⟩
      · exact Or.inl ⟨m, hm, hP⟩
      · exact Or.inr ⟨m, hm, hP⟩

end

/-- C7: hasLoginForm is true iff some form element of the document
contains, at any descendant depth, an input element whose type attribute
equals password or email. -/
theorem checkLoginForm_iff (doc : Node) :
    checkLoginForm doc = true ↔
      ∃ f ∈ preorder doc, f.ntype = .elementNode ∧ f.data = "form" ∧
        ∃ i ∈ preorder f, i.ntype = .elementNode ∧ i.data = "input" ∧
          ∃ a ∈ i.attr, a.key = "type" ∧ (a.val = "password" ∨ a.val = "email") := by
  unfold checkLoginForm
  rw [loginTraverse_iff doc]
  unfold isLoginForm
  constructor
  · rintro ⟨f, hf, h1, h2, h3⟩
    exact ⟨f, hf, h1, h2, by simpa [isLoginInput] using (hasPasswordField_iff f).mp h3⟩
  · rintro ⟨f, hf, h1, h2, h3⟩
    exact ⟨f, hf, h1, h2, (hasPasswordField_iff f).mpr (by simpa [isLoginInput] using h3)⟩

/-- Number of doctype nodes in the subtree.  A document produced by
html.Parse has at most one. -/
def doctypeCount (n : Node) : Nat :=
  (preorder n).countP (fun m => m.ntype == .doctypeNode)

/-- Number of doctype nodes in the forest. -/
def doctypeCountList (cs : List Node) : Nat :=
  (preorderList cs).countP (fun m => m.ntype == .doctypeNode)

theorem countP_le_one_eq {α : Type} (p : α → Bool) :
    ∀ (l : List α), l.countP p ≤ 1 →
      ∀ (a b : α), a ∈ l → b ∈ l → p a = true → p b = true → a = b := by
  intro l
  induction l with
  | nil => intro h a b ha; cases ha
  | cons x xs ih =>
    intro h a b ha hb hpa hpb
    rw [List.countP_cons] at h
    rcases List.mem_cons.mp ha with rfl | ha2
    · rcases List.mem_cons.mp hb with rfl | hb2
      · rfl
      · exfalso
        have h1 : 0 < xs.countP p := List.countP_pos.mpr ⟨b, hb2, hpb⟩
        rw [if_pos hpa] at h
        omega
    · rcases List.mem_cons.mp hb with rfl | hb2
      · exfalso
        have h1 : 0 < xs.countP p := List.countP_pos.mpr ⟨a, ha2, hpa⟩
        rw [if_pos hpb] at h
        omega
      · exact ih (by omega) a b ha2 hb2 hpa hpb

theorem doctypeCount_mk (ty : NodeType) (da : String) (attrs : List Attribute)
    (cs : List Node) :
    doctypeCount (.mk ty da attrs cs) =
      doctypeCountList cs + (if ty = NodeType.doctypeNode then 1 else 0) := by
  unfold doctypeCount doctypeCountList
  rw [preorder_mk, List.countP_cons]
  congr 1
  simp [Node.ntype]

theorem doctypeCountList_cons (c : Node) (rest : List Node) :
    doctypeCountList (c :: rest) = doctypeCount c + doctypeCountList rest := by
  unfold doctypeCount doctypeCountList
  rw [preorderList_cons, List.countP_append]

mutual

theorem findDoctype_empty_of_none : ∀ (n : Node),
    doctypeCount n = 0 → findDoctype n = ""
  | .mk ty da attrs cs => by
    intro h
    rw [doctypeCount_mk] at h
    simp only [findDoctype]
    match ty with
    | .doctypeNode => rw [if_pos rfl] at h; omega
    | .errorNode => exact findDoctypeList_empty_of_none cs (by omega)
    | .textNode => exact findDoctypeList_empty_of_none cs (by omega)
    | .documentNode => exact findDoctypeList_empty_of_none cs (by omega)
    | .elementNode => exact findDoctypeList_empty_of_none cs (by omega)
    | .commentNode => exact findDoctypeList_empty_of_none cs (by omega)
    | .rawNode => exact findDoctypeList_empty_of_none cs (by omega)

theorem findDoctypeList_empty_of_none : ∀ (cs : List Node),
    doctypeCountList cs = 0 → findDoctypeList cs = ""
  | [] => by intro h; rfl
  | c :: rest => by
    intro h
    rw [doctypeCountList_cons] at h
    simp only [findDoctypeList]
    rw [findDoctype_empty_of_none c (by omega)]
    simp only [if_pos rfl]
    exact findDoctypeList_empty_of_none rest (by omega)

end

mutual

theorem findDoctype_empty_all : ∀ (n : Node), doctypeCount n ≤ 1 →
    findDoctype n = "" →
      ∀ m ∈ preorder n, m.ntype = .doctypeNode → m.data = ""
  | .mk ty da attrs cs => by
    intro hc hf m hm hdt
    rw [doctypeCount_mk] at hc
    rcases List.mem_cons.mp (by simpa using hm) with rfl | hm2
    · simp only [Node.ntype] at hdt
      subst hdt
      simp only [findDoctype] at hf
      exact hf
    · match hty : ty with
      | .doctypeNode =>
        exfalso
        rw [if_pos rfl] at hc
        have h0 : doctypeCountList cs = 0 := by omega
        have : 0 < (preorderList cs).countP (fun m => m.ntype == .doctypeNode) :=
          List.countP_pos.mpr ⟨m, hm2, by simp [hdt]⟩
        unfold doctypeCountList at h0
        omega
      | .errorNode =>
        exact findDoctypeList_empty_all cs (by omega) hf m hm2 hdt
      | .textNode =>
        exact findDoctypeList_empty_all cs (by omega) hf m hm2 hdt
      | .documentNode =>
        exact findDoctypeList_empty_all cs (by omega) hf m hm2 hdt
      | .elementNode =>
        exact findDoctypeList_empty_all cs (by omega) hf m hm2 hdt
      | .commentNode =>
        exact findDoctypeList_empty_all cs (by omega) hf m hm2 hdt
      | .rawNode =>
        exact findDoctypeList_empty_all cs (by omega) hf m hm2 hdt

theorem findDoctypeList_empty_all : ∀ (cs : List Node), doctypeCountList cs ≤ 1 →
    findDoctypeList cs = "" →
      ∀ m ∈ preorderList cs, m.ntype = .doctypeNode → m.data = ""
  | [] => by intro _ _ m hm; cases hm
  | c :: rest => by
    intro hc hf m hm hdt
    rw [doctypeCountList_cons] at hc
    simp only [findDoctypeList] at hf
    by_cases hone : findDoctype c = ""
    · rw [hone, if_pos rfl] at hf
      rcases List.mem_append.mp (by simpa using hm) with hm2 | hm2
      · exact findDoctype_empty_all c (by omega) hone m hm2 hdt
      · exact findDoctypeList_empty_all rest (by omega) hf m hm2 hdt
    · rw [if_neg hone] at hf
      exact absurd hf hone

end

mutual

theorem findDoctype_mem : ∀ (n : Node), findDoctype n ≠ "" →
    ∃ m ∈ preorder n, m.ntype = .doctypeNode ∧ m.data = findDoctype n
  | .mk ty da attrs cs => by
    intro hf
    match hty : ty with
    | .doctypeNode =>
      exact ⟨.mk .doctypeNode da attrs cs, by simp, by simp [Node.ntype], by
        simp [Node.data, findDoctype]⟩
    | .errorNode =>
      obtain ⟨m, hm, h1, h2⟩ := findDoctypeList_mem cs hf
      exact ⟨m, by simp [List.mem_cons_of_mem _ hm], h1, h2⟩
    | .textNode =>
      obtain ⟨m, hm, h1, h2⟩ := findDoctypeList_mem cs hf
      exact ⟨m, by simp [List.mem_cons_of_mem _ hm], h1, h2⟩
    | .documentNode =>
      obtain ⟨m, hm, h1, h2⟩ := findDoctypeList_mem cs hf
      exact ⟨m, by simp [List.mem_cons_of_mem _ hm], h1, h2⟩
    | .elementNode =>
      obtain ⟨m, hm, h1, h2⟩ := findDoctypeList_mem cs hf
      exact ⟨m, by simp [List.mem_cons_of_mem _ hm], h1, h2⟩
    | .commentNode =>
      obtain ⟨m, hm, h1, h2⟩ := findDoctypeList_mem cs hf
      exact ⟨m, by simp [List.mem_cons_of_mem _ hm], h1, h2⟩
    | .rawNode =>
      obtain ⟨m, hm, h1, h2⟩ := findDoctypeList_mem cs hf
      exact ⟨m, by simp [List.mem_cons_of_mem _ hm], h1, h2⟩

theorem findDoctypeList_mem : ∀ (cs : List Node), findDoctypeList cs ≠ "" →
    ∃ m ∈ preorderList cs, m.ntype = .doctypeNode ∧ m.data = findDoctypeList cs
  | [] => by intro hf; exact absurd rfl hf
  | c :: rest => by
    intro hf
    simp only [findDoctypeList] at hf ⊢
    by_cases hone : findDoctype c = ""
    · rw [hone, if_pos rfl] at hf ⊢
      obtain ⟨m, hm, h1, h2⟩ := findDoctypeList_mem rest hf
      exact ⟨m, by simp [List.mem_append_right _ hm], h1, h2⟩
    · rw [if_neg hone] at hf ⊢
      obtain ⟨m, hm, h1, h2⟩ := findDoctype_mem c hone
      exact ⟨m, by simp [List.mem_append_left _ hm], h1, h2⟩

end

/-- A two-node document fixture: an HTML5 doctype followed by an html
element. -/
def doc5 : Node :=
  .mk .documentNode "" []
    [.mk .doctypeNode "html" [] [], .mk .elementNode "html" [] []]

theorem contains_or_eq_html (d : String) :
    (goContains d "html" || decide (d = "html")) = goContains d "html" := by
  by_cases h : d = "html"
  · subst h; decide
  · simp [h]

/-- C6: for a parsed document (at most one doctype node, as html.Parse
guarantees), the version label is HTML5 iff the document has a doctype
node whose content contains the substring html case-insensitively; with no
doctype node, or non-matching content, the label is Unknown. -/
theorem extractHTMLVersion_iff (doc : Node) (hc : doctypeCount doc ≤ 1) :
    extractHTMLVersion doc = "HTML5" ↔
      ∃ m ∈ preorder doc, m.ntype = .doctypeNode ∧
        goContains (goToLower m.data) "html" = true := by
  unfold extractHTMLVersion
  simp only []
  rw [contains_or_eq_html]
  by_cases hb : goContains (goToLower (findDoctype doc)) "html" = true
  · rw [if_pos hb]
    constructor
    · intro _
      have hne : findDoctype doc ≠ "" := by
        intro h0
        rw [h0] at hb
        exact absurd hb (by decide)
      obtain ⟨m, hm, h1, h2⟩ := findDoctype_mem doc hne
      exact ⟨m, hm, h1, by rw [h2]; exact hb⟩
    · intro _
      rfl
  · rw [if_neg hb]
    constructor
    · intro h
      exact absurd h (by decide)
    · rintro ⟨m, hm, h1, h2⟩
      exfalso
      apply hb
      by_cases hne : findDoctype doc = ""
      · have hd0 : m.data = "" := findDoctype_empty_all doc hc hne m hm h1
        rw [hd0] at h2
        exact absurd h2 (by decide)
      · obtain ⟨m0, hm0, h01, h02⟩ := findDoctype_mem doc hne
        have heq : m = m0 :=
          countP_le_one_eq (fun m => m.ntype == NodeType.doctypeNode) (preorder doc)
            (by simpa [doctypeCount] using hc)
            m m0 hm hm0 (by simp [h1]) (by simp [h01])
        rw [heq, h02] at h2
        exact h2

/-- C6 witness: a document holding one doctype node with content html is
labelled HTML5. -/
theorem extractHTMLVersion_iff_witness :
    doctypeCount doc5 ≤ 1 ∧
    (extractHTMLVersion doc5 = "HTML5" ↔
      ∃ m ∈ preorder doc5, m.ntype = .doctypeNode ∧
        goContains (goToLower m.data) "html" = true) :=
  ⟨by decide, extractHTMLVersion_iff doc5 (by decide)⟩

theorem checkFold (oracle : String → Option Nat) :
    ∀ (links : List Link) (pre : List Link) (n : Nat),
      links.foldl
        (fun acc l =>
          let l2 := checkOneLink oracle l
          (acc.1 ++ [l2], acc.2 + (if l2.isAccessible then 0 else 1)))
        (pre, n) =
      (pre ++ links.map (checkOneLink oracle),
        n + (links.map (checkOneLink oracle)).countP (fun l => !l.isAccessible)) := by
  intro links
  induction links with
  | nil =>
    intro pre n
    simp
  | cons l rest ih =>
    intro pre n
    rw [List.foldl_cons]
    simp only []
    rw [ih]
    simp only [List.map_cons, List.countP_cons, Prod.mk.injEq]
    constructor
    · simp
    · by_cases hA : (checkOneLink oracle l).isAccessible = true
      · simp [hA]
      · simp only [Bool.not_eq_true] at hA
        simp only [hA, Bool.not_false, if_pos rfl, if_neg]
        simp
        omega

/-- checkLinkAccessibility maps checkOneLink over the list in order and the
aggregated count is the number of links left inaccessible. -/
theorem checkLinkAccessibility_eq (oracle : String → Option Nat) (links : List Link) :
    checkLinkAccessibility oracle links =
      (links.map (checkOneLink oracle),
        (links.map (checkOneLink oracle)).countP (fun l => !l.isAccessible)) := by
  unfold checkLinkAccessibility
  rw [checkFold]
  simp

/-- C1: a fetch with any received status other than 200 makes performCrawl
return the fetch error carrying that status, and performCrawl returns a
result exactly when the outcome was a 200 response (so no AnalysisResult
is produced for 3xx, 4xx, 5xx or network failure). -/
theorem performCrawl_status (oracle : String → Option Nat) (targetURL : String)
    (outcome : FetchOutcome) (s : Nat) (doc : Node) (hs : s ≠ 200) :
    performCrawl oracle targetURL (.response s doc) =
      .error (.unexpectedStatus s) ∧
    ((∃ r, performCrawl oracle targetURL outcome = .ok r) ↔
      ∃ d, outcome = .response 200 d) := by
  constructor
  · simp [performCrawl, hs]
  · constructor
    · rintro ⟨r, hr⟩
      match outcome with
      | .netError => simp [performCrawl] at hr
      | .response st d =>
        by_cases h200 : st = 200
        · subst h200
          exact ⟨d, rfl⟩
        · simp [performCrawl, h200] at hr
    · rintro ⟨d, rfl⟩
      exact ⟨_, rfl⟩

/-- C1 witness: at status 404 the run returns the UnexpectedStatus error. -/
theorem performCrawl_status_witness :
    (404 : Nat) ≠ 200 ∧
    (performCrawl (fun _ => some 200) "https://site.com"
        (.response 404 (.mk .documentNode "" [] [])) =
      .error (.unexpectedStatus 404) ∧
    ((∃ r, performCrawl (fun _ => some 200) "https://site.com"
        (.response 404 (.mk .documentNode "" [] [])) = .ok r) ↔
      ∃ d, (FetchOutcome.response 404 (.mk .documentNode "" [] [])) =
        .response 200 d)) :=
  ⟨by decide, performCrawl_status (fun _ => some 200) "https://site.com"
    (.response 404 (.mk .documentNode "" [] [])) 404 (.mk .documentNode "" [] [])
    (by decide)⟩

/-- C3: for a link that is probed (no skip) and receives a response with a
valid HTTP status, isAccessible is true iff the status is in [100, 399];
a network failure yields statusCode 0 and isAccessible false; the link
list is processed elementwise in order; and HEAD failures never surface as
a run-level error (a 200 page fetch always produces a result, whatever the
oracle answers). -/
theorem link_accessibility_status (oracle : String → Option Nat)
    (links : List Link) (l1 l2 : Link) (code : Nat) (targetURL : String) (doc : Node)
    (h1 : skipCheck l1.url = false) (h2 : oracle l1.url = some code)
    (h3 : 100 ≤ code)
    (h4 : skipCheck l2.url = false) (h5 : oracle l2.url = none) :
    ((checkOneLink oracle l1).statusCode = code ∧
      ((checkOneLink oracle l1).isAccessible = true ↔ (100 ≤ code ∧ code ≤ 399))) ∧
    ((checkOneLink oracle l2).statusCode = 0 ∧
      (checkOneLink oracle l2).isAccessible = false) ∧
    (checkLinkAccessibility oracle links).1 = links.map (checkOneLink oracle) ∧
    (∃ r, performCrawl oracle targetURL (.response 200 doc) = .ok r) := by
  refine ⟨⟨?_, ?_⟩, ⟨?_, ?_⟩, ?_, ?_⟩
  · simp [checkOneLink, h1, h2]
  · simp only [checkOneLink, h1, Bool.false_eq_true, if_false, h2,
      decide_eq_true_eq]
    constructor
    · intro hlt
      omega
    · intro hb
      omega
  · simp [checkOneLink, h4, h5]
  · simp [checkOneLink, h4, h5]
  · rw [checkLinkAccessibility_eq]
  · exact ⟨_, rfl⟩

/-- C3 witness: evaluated at a responding link (status 204) and a failing
link, under the oracle that answers 204 for the first and fails for the
second. -/
theorem link_accessibility_status_witness :
    (skipCheck "http://a.com/x" = false ∧
      (fun u => if u = "http://a.com/x" then some 204 else none) "http://a.com/x"
        = some 204 ∧
      100 ≤ 204 ∧
      skipCheck "http://b.com/y" = false ∧
      (fun u => if u = "http://a.com/x" then some 204 else none) "http://b.com/y"
        = none) ∧
    (((checkOneLink (fun u => if u = "http://a.com/x" then some 204 else none)
        ⟨"http://a.com/x", "external", 0, false⟩).statusCode = 204 ∧
      ((checkOneLink (fun u => if u = "http://a.com/x" then some 204 else none)
        ⟨"http://a.com/x", "external", 0, false⟩).isAccessible = true ↔
        (100 ≤ 204 ∧ 204 ≤ 399))) ∧
    ((checkOneLink (fun u => if u = "http://a.com/x" then some 204 else none)
        ⟨"http://b.com/y", "external", 0, false⟩).statusCode = 0 ∧
      (checkOneLink (fun u => if u = "http://a.com/x" then some 204 else none)
        ⟨"http://b.com/y", "external", 0, false⟩).isAccessible = false) ∧
    (checkLinkAccessibility (fun u => if u = "http://a.com/x" then some 204 else none)
        []).1 =
      List.map
        (checkOneLink (fun u => if u = "http://a.com/x" then some 204 else none)) [] ∧
    (∃ r, performCrawl (fun u => if u = "http://a.com/x" then some 204 else none)
        "https://site.com" (.response 200 (.mk .documentNode "" [] [])) = .ok r)) :=
  ⟨⟨by decide, by decide, by decide, by decide, by decide⟩,
    link_accessibility_status _ [] ⟨"http://a.com/x", "external", 0, false⟩
      ⟨"http://b.com/y", "external", 0, false⟩ 204 "https://site.com"
      (.mk .documentNode "" [] [])
      (by decide) (by decide) (by decide) (by decide) (by decide)⟩

/-- A URL of exactly 2000 characters whose scheme is http but which is in
the rootless form http:aaa... rather than http://... . -/
def rootlessHttp2000 : String :=
  ⟨'h' :: 't' :: 't' :: 'p' :: ':' :: List.replicate 1995 'a'⟩

/-- A URL of exactly 2000 characters in the http:// form. -/
def slashedHttp2000 : String :=
  ⟨'h' :: 't' :: 't' :: 'p' :: ':' :: '/' :: '/' :: List.replicate 1993 'b'⟩

theorem any_isCtl_replicate (c : Char) (hc : isCtl c = false) (n : Nat) :
    (List.replicate n c).any isCtl = false := by
  induction n with
  | zero => rfl
  | succ k ih => simp [List.replicate_succ, ih, hc]

theorem cutChar_replicate (ch c : Char) (h : (c == ch) = false) (n : Nat) :
    cutChar ch (List.replicate n c) = none := by
  induction n with
  | zero => rfl
  | succ k ih => simp [List.replicate_succ, cutChar, h, ih]

theorem cutChar_none_cons (ch x : Char) (xs : List Char) (hx : (x == ch) = false)
    (h : cutChar ch xs = none) : cutChar ch (x :: xs) = none := by
  simp [cutChar, hx, h]

theorem schemeSplit_step (acc : List Char) (c : Char) (cs : List Char)
    (hc : (c == ':') = false)
    (hok : ((acc.isEmpty && c.isAlpha) || (!acc.isEmpty && schemeOkChar c)) = true) :
    schemeSplit acc (c :: cs) = schemeSplit (c :: acc) cs := by
  simp [schemeSplit, hc, hok]

theorem schemeSplit_colon (acc : List Char) (cs : List Char)
    (h : acc.isEmpty = false) :
    schemeSplit acc (':' :: cs) = some (acc.reverse, cs) := by
  simp [schemeSplit, h]

theorem schemeSplit_http (R : List Char) :
    schemeSplit [] ('h' :: 't' :: 't' :: 'p' :: ':' :: R) =
      some (['h', 't', 't', 'p'], R) := by
  rw [schemeSplit_step [] 'h' _ (by decide) (by decide)]
  rw [schemeSplit_step ['h'] 't' _ (by decide) (by decide)]
  rw [schemeSplit_step ['t', 'h'] 't' _ (by decide) (by decide)]
  rw [schemeSplit_step ['t', 't', 'h'] 'p' _ (by decide) (by decide)]
  rw [schemeSplit_colon ['p', 't', 't', 'h'] R (by decide)]
  rfl

theorem parseScheme_http (R : List Char) :
    parseScheme ('h' :: 't' :: 't' :: 'p' :: ':' :: R) = ("http", R) := by
  unfold parseScheme
  rw [schemeSplit_http R]
  rfl

theorem parseAfterScheme_opq (sch : String) (hs : sch ≠ "") (rest1 : List Char)
    (hr : rest1.head? ≠ some '/') (hasQ : Bool) (q frag : List Char) :
    parseAfterScheme sch rest1 hasQ q frag =
      some { nilURL with scheme := sch, opq := ⟨rest1⟩, hasQuery := hasQ,
                         query := ⟨q⟩, fragment := ⟨frag⟩ } := by
  unfold parseAfterScheme
  rw [if_pos hr, if_pos hs]

/-- Parsing http: followed by any run of letters yields scheme http with a
rootless remainder (no double slash) held in the opq field. -/
theorem parseURL_rootless (n : Nat) :
    parseURL ⟨'h' :: 't' :: 't' :: 'p' :: ':' :: List.replicate n 'a'⟩ =
      some { nilURL with scheme := "http", opq := ⟨List.replicate n 'a'⟩ } := by
  have hhash : cutChar '#' ('h' :: 't' :: 't' :: 'p' :: ':' :: List.replicate n 'a')
      = none := by
    apply cutChar_none_cons _ _ _ (by decide)
    apply cutChar_none_cons _ _ _ (by decide)
    apply cutChar_none_cons _ _ _ (by decide)
    apply cutChar_none_cons _ _ _ (by decide)
    apply cutChar_none_cons _ _ _ (by decide)
    exact cutChar_replicate '#' 'a' (by decide) n
  have hctl : ('h' :: 't' :: 't' :: 'p' :: ':' :: List.replicate n 'a').any isCtl
      = false := by
    simp only [List.any_cons, any_isCtl_replicate 'a' (by decide) n, Bool.or_false]
    decide
  unfold parseURL
  rw [show (String.mk ('h' :: 't' :: 't' :: 'p' :: ':' :: List.replicate n 'a')).data
    = 'h' :: 't' :: 't' :: 'p' :: ':' :: List.replicate n 'a' from rfl]
  rw [hctl]
  rw [if_neg Bool.false_ne_true]
  rw [show splitFrag ('h' :: 't' :: 't' :: 'p' :: ':' :: List.replicate n 'a')
      = ('h' :: 't' :: 't' :: 'p' :: ':' :: List.replicate n 'a', []) by
    unfold splitFrag
    rw [hhash]]
  simp only []
  rw [if_neg (show ¬(('h' :: 't' :: 't' :: 'p' :: ':' ::
    List.replicate n 'a').head? = some ':') by simp)]
  rw [parseScheme_http (List.replicate n 'a')]
  simp only []
  rw [show splitQuery (List.replicate n 'a') = (List.replicate n 'a', false, []) by
    unfold splitQuery
    rw [cutChar_replicate '?' 'a' (by decide) n]]
  simp only []
  rw [parseAfterScheme_opq "http" (by decide) (List.replicate n 'a')
    (by cases n <;> simp [List.replicate_succ]) false [] []]
  rfl

theorem listHasPre_http_rootless (n : Nat) :
    listHasPre ['h', 't', 't', 'p', ':', '/', '/']
      ('h' :: 't' :: 't' :: 'p' :: ':' :: List.replicate n 'a') = false := by
  cases n with
  | zero => simp [listHasPre]
  | succ k =>
    rw [List.replicate_succ]
    simp [listHasPre]

theorem listHasPre_https_rootless (n : Nat) :
    listHasPre ['h', 't', 't', 'p', 's', ':', '/', '/']
      ('h' :: 't' :: 't' :: 'p' :: ':' :: List.replicate n 'a') = false := by
  simp [listHasPre]

theorem length_rootless (n : Nat) :
    ('h' :: 't' :: 't' :: 'p' :: ':' :: List.replicate n 'a').length = n + 5 := by
  simp

/-- URLs of the form http:aaa... up to the length ceiling are skipped by the
verifier: the literal-prefix test fails even though the scheme is http. -/
theorem skipCheck_rootless (n : Nat) (hn : n + 5 ≤ 2000) :
    skipCheck ⟨'h' :: 't' :: 't' :: 'p' :: ':' :: List.replicate n 'a'⟩ = true := by
  unfold skipCheck goHasPre
  rw [show (String.mk ('h' :: 't' :: 't' :: 'p' :: ':' :: List.replicate n 'a')).data
    = 'h' :: 't' :: 't' :: 'p' :: ':' :: List.replicate n 'a' from rfl]
  rw [show ("http://" : String).data = ['h', 't', 't', 'p', ':', '/', '/'] from rfl]
  rw [show ("https://" : String).data = ['h', 't', 't', 'p', 's', ':', '/', '/']
    from rfl]
  rw [listHasPre_http_rootless n, listHasPre_https_rootless n]
  rw [length_rootless n]
  rw [show decide (2000 < n + 5) = false by
    rw [decide_eq_false_iff_not]
    omega]
  rfl

/-- C4 counterexample: this link URL has exactly 2000 characters and its
scheme is http, yet the verifier does not check it normally: with a HEAD
oracle answering 200 for every URL the link still comes back with
statusCode 0 and isAccessible false, because checkLinkAccessibility tests
for the literal prefixes http:// and https://, not for the scheme. -/
theorem checkOneLink_scheme_counterexample :
    rootlessHttp2000.length = 2000 ∧
    (parseURL rootlessHttp2000).map GoURL.scheme = some "http" ∧
    checkOneLink (fun _ => some 200) ⟨rootlessHttp2000, "internal", 0, false⟩ =
      ⟨rootlessHttp2000, "internal", 0, false⟩ := by
  refine ⟨?_, ?_, ?_⟩
  · rw [show rootlessHttp2000.length
      = ('h' :: 't' :: 't' :: 'p' :: ':' :: List.replicate 1995 'a').length from rfl]
    rw [length_rootless 1995]
  · rw [show rootlessHttp2000
      = ⟨'h' :: 't' :: 't' :: 'p' :: ':' :: List.replicate 1995 'a'⟩ from rfl]
    rw [parseURL_rootless 1995]
    rfl
  · have hskip : skipCheck rootlessHttp2000 = true := by
      rw [show rootlessHttp2000
        = ⟨'h' :: 't' :: 't' :: 'p' :: ':' :: List.replicate 1995 'a'⟩ from rfl]
      exact skipCheck_rootless 1995 (by omega)
    simp [checkOneLink, hskip]

/-- C4 amended: the verifier performs no network call and immediately
marks statusCode 0 / isAccessible false exactly for the links whose URL is
longer than 2000 characters or does not start with the literal prefix
http:// or https://; a link URL of exactly 2000 characters starting with
http:// or https:// is checked normally (its status code is taken from the
HEAD response). -/
theorem checkOneLink_skip (oracle oracle2 : String → Option Nat) (l l2k : Link)
    (code : Nat)
    (hskip : skipCheck l.url = true)
    (hn : skipCheck l2k.url = false)
    (hlen : l2k.url.length = 2000)
    (hcode : oracle l2k.url = some code) :
    checkOneLink oracle l = { l with statusCode := 0, isAccessible := false } ∧
    checkOneLink oracle l = checkOneLink oracle2 l ∧
    (checkOneLink oracle l2k).statusCode = code ∧
    (skipCheck l.url = true ↔
      (2000 < l.url.length ∨
        (goHasPre l.url "http://" = false ∧ goHasPre l.url "https://" = false))) := by
  refine ⟨?_, ?_, ?_, ?_⟩
  · simp [checkOneLink, hskip]
  · simp [checkOneLink, hskip]
  · simp [checkOneLink, hn, hcode]
  · unfold skipCheck
    rw [show l.url.length = l.url.data.length from rfl]
    simp [Bool.or_eq_true, Bool.and_eq_true]

theorem length_slashed (n : Nat) :
    ('h' :: 't' :: 't' :: 'p' :: ':' :: '/' :: '/' ::
      List.replicate n 'b').length = n + 7 := by
  simp

theorem skipCheck_slashed2000 : skipCheck slashedHttp2000 = false := by
  unfold skipCheck goHasPre
  rw [show slashedHttp2000.data
    = 'h' :: 't' :: 't' :: 'p' :: ':' :: '/' :: '/' :: List.replicate 1993 'b'
    from rfl]
  rw [show ("http://" : String).data = ['h', 't', 't', 'p', ':', '/', '/'] from rfl]
  rw [length_slashed 1993]
  rw [show listHasPre ['h', 't', 't', 'p', ':', '/', '/']
      ('h' :: 't' :: 't' :: 'p' :: ':' :: '/' :: '/' :: List.replicate 1993 'b')
      = true by simp [listHasPre]]
  rw [show decide (2000 < 1993 + 7) = false by
    rw [decide_eq_false_iff_not]
    omega]
  rfl

theorem slashedHttp2000_length : slashedHttp2000.length = 2000 := by
  rw [show slashedHttp2000.length
    = ('h' :: 't' :: 't' :: 'p' :: ':' :: '/' :: '/' ::
        List.replicate 1993 'b').length from rfl]
  rw [length_slashed 1993]

/-- C4 witness: a mailto link is skipped whatever the oracle answers, and
an http:// URL of exactly 2000 characters is probed, receiving status 204. -/
theorem checkOneLink_skip_witness :
    (skipCheck "mailto:x@y.com" = true ∧
      skipCheck slashedHttp2000 = false ∧
      slashedHttp2000.length = 2000 ∧
      (fun (_ : String) => some 204) slashedHttp2000 = some 204) ∧
    (checkOneLink (fun _ => some 204) ⟨"mailto:x@y.com", "external", 0, false⟩ =
        { url := "mailto:x@y.com", linkType := "external", statusCode := 0,
          isAccessible := false } ∧
      checkOneLink (fun _ => some 204) ⟨"mailto:x@y.com", "external", 0, false⟩ =
        checkOneLink (fun _ => none) ⟨"mailto:x@y.com", "external", 0, false⟩ ∧
      (checkOneLink (fun _ => some 204)
        ⟨slashedHttp2000, "external", 0, false⟩).statusCode = 204 ∧
      (skipCheck "mailto:x@y.com" = true ↔
        (2000 < ("mailto:x@y.com" : String).length ∨
          (goHasPre "mailto:x@y.com" "http://" = false ∧
            goHasPre "mailto:x@y.com" "https://" = false)))) :=
  ⟨⟨by decide, skipCheck_slashed2000, slashedHttp2000_length, rfl⟩,
    checkOneLink_skip (fun _ => some 204) (fun _ => none)
      ⟨"mailto:x@y.com", "external", 0, false⟩
      ⟨slashedHttp2000, "external", 0, false⟩ 204
      (by decide) skipCheck_slashed2000
      slashedHttp2000_length rfl⟩

/-- The invariant the link accumulator maintains: the two counters sum to
the list length and every recorded link is classified internal or
external. -/
def accInv (acc : LinkAcc) : Prop :=
  acc.internal + acc.external = acc.links.length ∧
  ∀ l ∈ acc.links, l.linkType = "internal" ∨ l.linkType = "external"

theorem linkStep_inv (base : GoURL) (a : Attribute) (acc : LinkAcc)
    (h : accInv acc) : accInv (linkStep base acc a) := by
  unfold linkStep
  by_cases hc : a.key = "href" ∧ a.val ≠ "" ∧ ¬ goHasPre a.val "#" = true
  · rw [if_pos hc]
    rcases hp : parseURL a.val with _ | ref
    · exact h
    · dsimp only
      by_cases hh : (resolveReference base ref).host = base.host ∨
          (resolveReference base ref).host = ""
      · rw [if_pos hh]
        constructor
        · simp only [List.length_append, List.length_cons, List.length_nil]
          have hs := h.1
          omega
        · intro l hl
          rcases List.mem_append.mp hl with hl2 | hl2
          · exact h.2 l hl2
          · left
            rcases List.mem_singleton.mp hl2 with rfl
            rfl
      · rw [if_neg hh]
        constructor
        · simp only [List.length_append, List.length_cons, List.length_nil]
          have hs := h.1
          omega
        · intro l hl
          rcases List.mem_append.mp hl with hl2 | hl2
          · exact h.2 l hl2
          · right
            rcases List.mem_singleton.mp hl2 with rfl
            rfl
  · rw [if_neg hc]
    exact h

theorem linkFold_inv (base : GoURL) :
    ∀ (attrs : List Attribute) (acc : LinkAcc), accInv acc →
      accInv (attrs.foldl (linkStep base) acc) := by
  intro attrs
  induction attrs with
  | nil => intro acc h; exact h
  | cons a rest ih =>
    intro acc h
    rw [List.foldl_cons]
    exact ih _ (linkStep_inv base a acc h)

mutual

theorem linksNode_inv : ∀ (base : GoURL) (n : Node) (acc : LinkAcc),
    accInv acc → accInv (linksNode base n acc)
  | base, .mk ty da attrs cs, acc => fun h => by
    simp only [linksNode]
    apply linksList_inv
    by_cases hc : ty = NodeType.elementNode ∧ da = "a"
    · rw [if_pos hc]
      exact linkFold_inv base attrs acc h
    · rw [if_neg hc]
      exact h

theorem linksList_inv : ∀ (base : GoURL) (cs : List Node) (acc : LinkAcc),
    accInv acc → accInv (linksList base cs acc)
  | _, [], _ => fun h => h
  | base, c :: rest, acc => fun h => by
    simp only [linksList]
    exact linksList_inv base rest _ (linksNode_inv base c acc h)

end

/-- C10: after extraction internalLinkCount plus externalLinkCount equals
the number of link records and every record is classified internal or
external; after verification the inaccessible count equals the number of
records with isAccessible false and never exceeds the list length. -/
theorem link_counts_invariant (doc : Node) (baseURL : String)
    (oracle : String → Option Nat) :
    (extractLinks doc baseURL).internal + (extractLinks doc baseURL).external =
      (extractLinks doc baseURL).links.length ∧
    ((extractLinks doc baseURL).links.all
      (fun l => l.linkType == "internal" || l.linkType == "external")) = true ∧
    (checkLinkAccessibility oracle (extractLinks doc baseURL).links).2 =
      (checkLinkAccessibility oracle (extractLinks doc baseURL).links).1.countP
        (fun l => !l.isAccessible) ∧
    (checkLinkAccessibility oracle (extractLinks doc baseURL).links).2 ≤
      (checkLinkAccessibility oracle (extractLinks doc baseURL).links).1.length := by
  have hinv : accInv (extractLinks doc baseURL) :=
    linksNode_inv _ doc ⟨[], 0, 0⟩ ⟨rfl, by intro l hl; cases hl⟩
  refine ⟨hinv.1, ?_, ?_, ?_⟩
  · rw [List.all_eq_true]
    intro l hl
    rcases hinv.2 l hl with h | h <;> simp [h]
  · rw [checkLinkAccessibility_eq]
  · rw [checkLinkAccessibility_eq]
    exact List.countP_le_length _

/-- The record link extraction produces for one href value: resolve it
against the base, classify internal iff the resolved host equals the base
host or is empty; a parse failure yields nothing. -/
def hrefRecord (base : GoURL) (a : Attribute) : Option Link :=
  if a.val ≠ "" ∧ ¬ goHasPre a.val "#" = true then
    match parseURL a.val with
    | some linkURL =>
      some { url := urlString (resolveReference base linkURL),
             linkType :=
               if (resolveReference base linkURL).host = base.host ∨
                  (resolveReference base linkURL).host = ""
               then "internal" else "external",
             statusCode := 0, isAccessible := false }
    | none => none
  else none

/-- Spec-side record of one node: an anchor element contributes the record
of its href attribute, every other node contributes nothing. -/
def specLinkOf (target : GoURL) (n : Node) : Option Link :=
  if n.ntype = .elementNode ∧ n.data = "a" then
    match n.attr.find? (fun a => a.key == "href") with
    | some a => hrefRecord target a
    | none => none
  else none

/-- Spec-side link list: one record per qualifying anchor, in pre-order. -/
def specLinkRecords (target : GoURL) (doc : Node) : List Link :=
  (preorder doc).filterMap (specLinkOf target)

mutual

/-- No element carries more than one href attribute (html.Parse drops
duplicate attributes, so parsed documents always satisfy this). -/
def uniqueHref : Node → Bool
  | .mk _ _ attrs cs =>
    decide (attrs.countP (fun a => a.key == "href") ≤ 1) && uniqueHrefList cs

/-- uniqueHref over a sibling list. -/
def uniqueHrefList : List Node → Bool
  | [] => true
  | c :: rest => uniqueHref c && uniqueHrefList rest

end

theorem linkStep_skip (base : GoURL) (acc : LinkAcc) (a : Attribute)
    (h : (a.key == "href") = false) : linkStep base acc a = acc := by
  unfold linkStep
  rw [if_neg]
  intro hc
  rw [hc.1] at h
  simp at h

theorem linkStep_links_href (base : GoURL) (acc : LinkAcc) (a : Attribute)
    (ha : (a.key == "href") = true) :
    (linkStep base acc a).links = acc.links ++ (hrefRecord base a).toList := by
  unfold linkStep hrefRecord
  have ha2 : a.key = "href" := by simpa using ha
  by_cases hc : a.val ≠ "" ∧ ¬ goHasPre a.val "#" = true
  · rw [if_pos ⟨ha2, hc.1, hc.2⟩, if_pos hc]
    rcases hp : parseURL a.val with _ | ref
    · simp
    · dsimp only
      by_cases hh : (resolveReference base ref).host = base.host ∨
          (resolveReference base ref).host = ""
      · rw [if_pos hh, if_pos hh]
        simp
      · rw [if_neg hh, if_neg hh]
        simp
  · rw [if_neg (fun hcc => hc ⟨hcc.2.1, hcc.2.2⟩), if_neg hc]
    simp

theorem linkFold_no_href (base : GoURL) :
    ∀ (attrs : List Attribute) (acc : LinkAcc),
      attrs.countP (fun a => a.key == "href") = 0 →
      attrs.foldl (linkStep base) acc = acc := by
  intro attrs
  induction attrs with
  | nil => intro acc _; rfl
  | cons a rest ih =>
    intro acc h
    rw [List.countP_cons] at h
    have ha : (a.key == "href") = false := by
      cases hb : (a.key == "href") with
      | false => rfl
      | true => rw [hb] at h; simp at h
    rw [ha] at h
    simp only [Bool.false_eq_true, if_false, Nat.add_zero] at h
    rw [List.foldl_cons, linkStep_skip base acc a ha]
    exact ih acc h

theorem linkFold_find (base : GoURL) :
    ∀ (attrs : List Attribute) (acc : LinkAcc),
      attrs.countP (fun a => a.key == "href") ≤ 1 →
      attrs.foldl (linkStep base) acc =
        (match attrs.find? (fun a => a.key == "href") with
         | some a => linkStep base acc a
         | none => acc) := by
  intro attrs
  induction attrs with
  | nil => intro acc _; rfl
  | cons a rest ih =>
    intro acc h
    rw [List.countP_cons] at h
    cases hb : (a.key == "href") with
    | true =>
      rw [List.find?_cons_of_pos rest
        (show (fun x : Attribute => x.key == "href") a = true from hb),
        List.foldl_cons]
      have h0 : rest.countP (fun a => a.key == "href") = 0 := by
        rw [hb] at h
        simpa using h
      exact linkFold_no_href base rest _ h0
    | false =>
      rw [List.find?_cons_of_neg rest
        (show ¬((fun x : Attribute => x.key == "href") a = true) by simp [hb]),
        List.foldl_cons, linkStep_skip base acc a hb]
      apply ih
      rw [hb] at h
      simp only [Bool.false_eq_true, if_false, Nat.add_zero] at h
      exact h

theorem linkStep_links (base : GoURL) (acc : LinkAcc) (a : Attribute) :
    (linkStep base acc a).links =
      acc.links ++ (linkStep base ⟨[], 0, 0⟩ a).links := by
  cases ha : (a.key == "href") with
  | true =>
    rw [linkStep_links_href base acc a ha, linkStep_links_href base ⟨[], 0, 0⟩ a ha]
    simp
  | false =>
    rw [linkStep_skip base acc a ha, linkStep_skip base ⟨[], 0, 0⟩ a ha]
    simp

theorem linkFold_links (base : GoURL) :
    ∀ (attrs : List Attribute) (acc : LinkAcc),
      (attrs.foldl (linkStep base) acc).links =
        acc.links ++ (attrs.foldl (linkStep base) ⟨[], 0, 0⟩).links := by
  intro attrs
  induction attrs with
  | nil => intro acc; simp
  | cons a rest ih =>
    intro acc
    rw [List.foldl_cons, List.foldl_cons]
    rw [ih (linkStep base acc a), ih (linkStep base ⟨[], 0, 0⟩ a)]
    rw [linkStep_links base acc a]
    simp [List.append_assoc]

mutual

theorem linksNode_links : ∀ (base : GoURL) (n : Node) (acc : LinkAcc),
    (linksNode base n acc).links =
      acc.links ++ (linksNode base n ⟨[], 0, 0⟩).links
  | base, .mk ty da attrs cs, acc => by
    simp only [linksNode]
    rw [linksList_links base cs
      (if ty = NodeType.elementNode ∧ da = "a" then attrs.foldl (linkStep base) acc
       else acc)]
    rw [linksList_links base cs
      (if ty = NodeType.elementNode ∧ da = "a"
       then attrs.foldl (linkStep base) ⟨[], 0, 0⟩ else ⟨[], 0, 0⟩)]
    by_cases hc : ty = NodeType.elementNode ∧ da = "a"
    · rw [if_pos hc, if_pos hc, linkFold_links base attrs acc]
      simp [List.append_assoc]
    · rw [if_neg hc, if_neg hc]
      simp

theorem linksList_links : ∀ (base : GoURL) (cs : List Node) (acc : LinkAcc),
    (linksList base cs acc).links =
      acc.links ++ (linksList base cs ⟨[], 0, 0⟩).links
  | _, [], acc => by simp [linksList]
  | base, c :: rest, acc => by
    simp only [linksList]
    rw [linksList_links base rest (linksNode base c acc)]
    rw [linksNode_links base c acc]
    rw [linksList_links base rest (linksNode base c ⟨[], 0, 0⟩)]
    simp [List.append_assoc]

end

mutual

theorem linksNode_spec : ∀ (base : GoURL) (n : Node), uniqueHref n = true →
    (linksNode base n ⟨[], 0, 0⟩).links = (preorder n).filterMap (specLinkOf base)
  | base, .mk ty da attrs cs => fun hu => by
    have hu' := hu
    unfold uniqueHref at hu'
    rw [Bool.and_eq_true] at hu'
    obtain ⟨hu1, hu2⟩ := hu'
    rw [decide_eq_true_eq] at hu1
    simp only [linksNode, preorder_mk]
    rw [linksList_links base cs
      (if ty = NodeType.elementNode ∧ da = "a" then
        attrs.foldl (linkStep base) ⟨[], 0, 0⟩ else ⟨[], 0, 0⟩)]
    rw [linksList_spec base cs hu2]
    rw [List.filterMap_cons]
    by_cases hc : ty = NodeType.elementNode ∧ da = "a"
    · rw [if_pos hc]
      rw [linkFold_find base attrs ⟨[], 0, 0⟩ hu1]
      rw [show specLinkOf base (.mk ty da attrs cs)
          = (match attrs.find? (fun a => a.key == "href") with
             | some a => hrefRecord base a
             | none => none) by
        unfold specLinkOf
        rw [if_pos (show (Node.mk ty da attrs cs).ntype = .elementNode ∧
          (Node.mk ty da attrs cs).data = "a" from hc)]
        rfl]
      rcases hf : attrs.find? (fun a => a.key == "href") with _ | a
      · rw [hf]
        simp
      · rw [hf]
        dsimp only
        have hkey : (a.key == "href") = true := by
          have h5 := List.find?_some hf
          simpa using h5
        rw [linkStep_links_href base ⟨[], 0, 0⟩ a hkey]
        rcases hr : hrefRecord base a with _ | rec
        · simp
        · simp
    · rw [if_neg hc]
      rw [show specLinkOf base (.mk ty da attrs cs) = none by
        unfold specLinkOf
        rw [if_neg (show ¬((Node.mk ty da attrs cs).ntype = .elementNode ∧
          (Node.mk ty da attrs cs).data = "a") from hc)]]
      simp

theorem linksList_spec : ∀ (base : GoURL) (cs : List Node),
    uniqueHrefList cs = true →
    (linksList base cs ⟨[], 0, 0⟩).links =
      (preorderList cs).filterMap (specLinkOf base)
  | base, [] => fun _ => by simp [linksList]
  | base, c :: rest => fun hu => by
    have hu' := hu
    unfold uniqueHrefList at hu'
    rw [Bool.and_eq_true] at hu'
    obtain ⟨hu1, hu2⟩ := hu'
    simp only [linksList, preorderList_cons]
    rw [linksList_links base rest (linksNode base c ⟨[], 0, 0⟩)]
    rw [linksNode_spec base c hu1, linksList_spec base rest hu2]
    rw [List.filterMap_append]

end

/-- C2: link extraction produces one record per anchor element whose href
attribute is non-empty and does not start with a hash: the record's URL is
the href resolved against the target URL's base, classified internal iff
the resolved host equals the target's host or is empty, and anchors whose
href fails to parse are skipped without affecting the other links.  Stated
for documents whose elements carry at most one href attribute, which
html.Parse guarantees. -/
theorem extractLinks_spec (doc : Node) (baseURL : String) (target : GoURL)
    (hb : parseURL baseURL = some target) (hu : uniqueHref doc = true) :
    (extractLinks doc baseURL).links = specLinkRecords target doc := by
  unfold extractLinks specLinkRecords
  rw [hb]
  simp only [Option.getD_some]
  exact linksNode_spec target doc hu

/-- An html body with five anchors: a relative link, an absolute external
link, a fragment link, an empty href and an anchor with no href. -/
def docLinks : Node :=
  .mk .documentNode "" []
    [.mk .elementNode "html" []
      [.mk .elementNode "body" []
        [.mk .elementNode "a" [⟨"href", "/about"⟩] [],
         .mk .elementNode "a" [⟨"href", "https://other.org/x"⟩] [],
         .mk .elementNode "a" [⟨"href", "#frag"⟩] [],
         .mk .elementNode "a" [⟨"href", ""⟩] [],
         .mk .elementNode "a" [] [.mk .textNode "plain" [] []]]]]

/-- The parsed form of the witness target page URL. -/
def exampleBase : GoURL := ⟨"https", "", "example.com", "/page", false, "", "", false⟩

/-- C2 witness: on a page with relative, external, fragment and empty
hrefs, extraction agrees with the specification records. -/
theorem extractLinks_spec_witness :
    (parseURL "https://example.com/page" = some exampleBase ∧
      uniqueHref docLinks = true) ∧
    (extractLinks docLinks "https://example.com/page").links =
      specLinkRecords exampleBase docLinks :=
  ⟨⟨by decide, by decide⟩,
    extractLinks_spec docLinks "https://example.com/page" exampleBase
      (by decide) (by decide)⟩

theorem badAnchor_noop (base : GoURL) (acc : LinkAcc) (badHref : String)
    (hbad : parseURL badHref = none) :
    linksNode base (.mk .elementNode "a" [⟨"href", badHref⟩] []) acc = acc := by
  have h1 : linksNode base (.mk .elementNode "a" [⟨"href", badHref⟩] []) acc
      = linkStep base acc ⟨"href", badHref⟩ := by
    simp [linksNode, linksList]
  rw [h1]
  unfold linkStep
  by_cases hc : (Attribute.mk "href" badHref).key = "href" ∧
      (Attribute.mk "href" badHref).val ≠ "" ∧
      ¬ goHasPre (Attribute.mk "href" badHref).val "#" = true
  · rw [if_pos hc]
    dsimp only
    rw [hbad]
  · rw [if_neg hc]

/-- C9: the analysis phase never fails and loses nothing to a malformed
href: a 200 fetch yields a result for every document and every HEAD
oracle, and an anchor whose href fails to parse contributes nothing while
leaving every other link intact (removing it from any sibling list leaves
link extraction unchanged). -/
theorem analysis_total (oracle : String → Option Nat) (targetURL : String)
    (doc : Node) (base : GoURL) (acc : LinkAcc) (ns1 ns2 : List Node)
    (badHref : String) (hbad : parseURL badHref = none) :
    (∃ r, performCrawl oracle targetURL (.response 200 doc) = .ok r) ∧
    linksList base (ns1 ++ .mk .elementNode "a" [⟨"href", badHref⟩] [] :: ns2) acc =
      linksList base (ns1 ++ ns2) acc := by
  constructor
  · exact ⟨_, rfl⟩
  · induction ns1 generalizing acc with
    | nil =>
      simp only [List.nil_append, linksList]
      rw [badAnchor_noop base acc badHref hbad]
    | cons c tl ih =>
      simp only [List.cons_append, linksList]
      exact ih _

/-- C9 witness: a newline inside an href makes url.Parse fail; dropping
that anchor from the sibling list changes nothing. -/
theorem analysis_total_witness :
    parseURL "bad\nhref" = none ∧
    ((∃ r, performCrawl (fun _ => none) "https://site.com"
        (.response 200 docLinks) = .ok r) ∧
    linksList exampleBase
        ([.mk .elementNode "a" [⟨"href", "/about"⟩] []] ++
          .mk .elementNode "a" [⟨"href", "bad\nhref"⟩] [] :: []) ⟨[], 0, 0⟩ =
      linksList exampleBase
        ([.mk .elementNode "a" [⟨"href", "/about"⟩] []] ++ []) ⟨[], 0, 0⟩) :=
  ⟨by decide,
    analysis_total (fun _ => none) "https://site.com" docLinks exampleBase
      ⟨[], 0, 0⟩ [.mk .elementNode "a" [⟨"href", "/about"⟩] []] []
      "bad\nhref" (by decide)⟩

/-- Spec-side per-node title candidate: the trimmed text of a title
element whose first child is a text node. -/
def titleTextData : Node → Option String
  | .mk ty da _ cs =>
    if ty = .elementNode ∧ da = "title" then (firstChildTextData cs).map goTrim
    else none

/-- The first non-empty string of the list, or the empty string. -/
def firstNonEmptyStr : List String → String
  | [] => ""
  | s :: rest => if s = "" then firstNonEmptyStr rest else s

theorem fNE_cons (s : String) (rest : List String) :
    firstNonEmptyStr (s :: rest) =
      (if s = "" then firstNonEmptyStr rest else s) := rfl

theorem findTitle_mk (ty : NodeType) (da : String) (attrs : List Attribute)
    (cs : List Node) :
    findTitle (.mk ty da attrs cs) =
      (if ty = .elementNode ∧ da = "title" then
        match firstChildTextData cs with
        | some s => goTrim s
        | none => findTitleList cs
      else findTitleList cs) := rfl

theorem findTitleList_cons (c : Node) (rest : List Node) :
    findTitleList (c :: rest) =
      (if findTitle c = "" then findTitleList rest else findTitle c) := rfl

theorem titleTextData_mk (ty : NodeType) (da : String) (attrs : List Attribute)
    (cs : List Node) :
    titleTextData (.mk ty da attrs cs) =
      (if ty = .elementNode ∧ da = "title" then (firstChildTextData cs).map goTrim
       else none) := rfl

/-- The title as the claim words it: the trimmed text of the first title
element in pre-order whose first child is a text node, empty if none. -/
def specTitle (doc : Node) : String :=
  ((preorder doc).filterMap titleTextData).headD ""

/-- The amended title: the first title element in pre-order whose first
child is a text node and whose trimmed text is non-empty, empty if none. -/
def specTitleAmended (doc : Node) : String :=
  firstNonEmptyStr ((preorder doc).filterMap titleTextData)

mutual

/-- Whether the subtree (the node included) holds a title element. -/
def containsTitle : Node → Bool
  | .mk ty da _ cs =>
    decide (ty = .elementNode ∧ da = "title") || containsTitleList cs

/-- containsTitle over a sibling list. -/
def containsTitleList : List Node → Bool
  | [] => false
  | c :: rest => containsTitle c || containsTitleList rest

end

mutual

/-- No title element of the subtree holds another title element among its
descendants (true of every document html.Parse produces, where title
content is raw text). -/
def noNestedTitle : Node → Bool
  | .mk ty da _ cs =>
    if ty = .elementNode ∧ da = "title" then !containsTitleList cs
    else noNestedTitleList cs

/-- noNestedTitle over a sibling list. -/
def noNestedTitleList : List Node → Bool
  | [] => true
  | c :: rest => noNestedTitle c && noNestedTitleList rest

end

mutual

theorem no_title_empty : ∀ (n : Node), containsTitle n = false →
    findTitle n = "" ∧ (preorder n).filterMap titleTextData = []
  | .mk ty da attrs cs => fun h => by
    unfold containsTitle at h
    rw [Bool.or_eq_false_iff] at h
    obtain ⟨h1, h2⟩ := h
    rw [decide_eq_false_iff_not] at h1
    obtain ⟨hl1, hl2⟩ := no_title_list_empty cs h2
    constructor
    · rw [findTitle_mk, if_neg h1]
      exact hl1
    · rw [preorder_mk, List.filterMap_cons, titleTextData_mk, if_neg h1]
      exact hl2

theorem no_title_list_empty : ∀ (cs : List Node), containsTitleList cs = false →
    findTitleList cs = "" ∧ (preorderList cs).filterMap titleTextData = []
  | [] => fun _ => ⟨rfl, rfl⟩
  | c :: rest => fun h => by
    unfold containsTitleList at h
    rw [Bool.or_eq_false_iff] at h
    obtain ⟨h1, h2⟩ := h
    obtain ⟨hc1, hc2⟩ := no_title_empty c h1
    obtain ⟨hr1, hr2⟩ := no_title_list_empty rest h2
    constructor
    · rw [findTitleList_cons, hc1, if_pos rfl]
      exact hr1
    · rw [preorderList_cons, List.filterMap_append, hc2, hr2]
      rfl

end

theorem firstNonEmptyStr_append (A B : List String) :
    firstNonEmptyStr (A ++ B) =
      (if firstNonEmptyStr A = "" then firstNonEmptyStr B
       else firstNonEmptyStr A) := by
  induction A with
  | nil => simp [firstNonEmptyStr]
  | cons s A2 ih =>
    rw [List.cons_append, fNE_cons, fNE_cons, ih]
    by_cases hs : s = ""
    · rw [if_pos hs, if_pos hs]
    · rw [if_neg hs, if_neg hs, if_neg hs]

mutual

theorem findTitle_spec : ∀ (n : Node), noNestedTitle n = true →
    findTitle n = firstNonEmptyStr ((preorder n).filterMap titleTextData)
  | .mk ty da attrs cs => fun h => by
    unfold noNestedTitle at h
    by_cases hT : ty = NodeType.elementNode ∧ da = "title"
    · rw [if_pos hT] at h
      rw [Bool.not_eq_eq_eq_not, Bool.not_true] at h
      obtain ⟨hl1, hl2⟩ := no_title_list_empty cs h
      rw [preorder_mk, List.filterMap_cons, findTitle_mk, if_pos hT,
        titleTextData_mk, if_pos hT]
      rcases hfc : firstChildTextData cs with _ | s
      · rw [Option.map_none']
        dsimp only
        rw [hl1, hl2]
        rfl
      · rw [Option.map_some']
        dsimp only
        rw [hl2, fNE_cons]
        by_cases he : goTrim s = ""
        · rw [if_pos he]
          exact he
        · rw [if_neg he]
    · rw [if_neg hT] at h
      rw [preorder_mk, List.filterMap_cons, findTitle_mk, if_neg hT,
        titleTextData_mk, if_neg hT]
      exact findTitleList_spec cs h

theorem findTitleList_spec : ∀ (cs : List Node), noNestedTitleList cs = true →
    findTitleList cs =
      firstNonEmptyStr ((preorderList cs).filterMap titleTextData)
  | [] => fun _ => rfl
  | c :: rest => fun h => by
    unfold noNestedTitleList at h
    rw [Bool.and_eq_true] at h
    obtain ⟨h1, h2⟩ := h
    rw [preorderList_cons, List.filterMap_append, firstNonEmptyStr_append]
    rw [← findTitle_spec c h1, ← findTitleList_spec rest h2]
    rw [findTitleList_cons]

end

/-- A title element holding one text child. -/
def titleNode (s : String) : Node :=
  .mk .elementNode "title" [] [.mk .textNode s [] []]

/-- A document whose first title trims to the empty string and whose
second title says X. -/
def c5doc : Node :=
  .mk .documentNode "" [] [titleNode "  ", titleNode "X"]

/-- C5 counterexample: on a document whose first title element holds only
whitespace, the crawler keeps searching and returns the second title, X,
while the claim (first title element in pre-order whose first child is a
text node, trimmed) predicts the empty string. -/
theorem extractTitle_counterexample :
    extractTitle c5doc = "X" ∧ specTitle c5doc = "" ∧ ("X" : String) ≠ "" := by
  refine ⟨by decide, by decide, by decide⟩

/-- C5 amended: on documents without nested title elements (as html.Parse
produces), the extracted title is the trimmed text of the first title
element in pre-order whose first child is a text node and whose trimmed
text is non-empty; the empty string when no such element exists. -/
theorem extractTitle_spec (doc : Node) (h : noNestedTitle doc = true) :
    extractTitle doc = specTitleAmended doc := by
  unfold extractTitle specTitleAmended
  exact findTitle_spec doc h

/-- C5 witness: evaluated on the whitespace-then-X document. -/
theorem extractTitle_spec_witness :
    noNestedTitle c5doc = true ∧ extractTitle c5doc = specTitleAmended c5doc :=
  ⟨by decide, extractTitle_spec c5doc (by decide)⟩

end UrlAnalyzer
